import Mathlib

/-!
Verification of the Sora game-server reset tracker (client core).

This file shallowly embeds the reset-time arithmetic, the timer/notification
scheduler and the checklist auto-reset sweep of the repository
(`src/public/assets/app.js` and the dailies tracker script) and proves the
specification claims about them.

Modelling conventions:
* Instants and durations are `Int` milliseconds (JS numbers hold exact
  integers in this range).  A server's UTC offset is modelled directly in
  milliseconds (`offsetMs = server.offset * 3600000`); `none` stands for a
  non-numeric `offset` (`typeof server.offset !== 'number'`).
* The JS composition
  `Date.UTC(d.getUTCFullYear(), d.getUTCMonth(), d.getUTCDate(), h, m)`
  computes the UTC-midnight of `d`'s calendar day plus `h` hours and `m`
  minutes; for every date with a four-digit year this midnight equals
  `t - t mod 86400000` (floor modulus), which is how we embed it
  (`dayStart`).  The legacy two-digit-year remapping of `Date.UTC` and the
  `±8.64e15` range clipping lie outside the model.
* NaN propagation in the dailies time functions is embedded with `Option`:
  `none` is an unparseable (NaN) component, and JS comparisons against NaN
  are false, which the embeddings reproduce at their use sites.
-/

/-- Milliseconds per day. -/
def msPerDay : Int := 86400000

/-- UTC midnight of the calendar day containing instant `t`:
the embedding of `Date.UTC(getUTCFullYear/Month/Date of t, 0, 0)`. -/
def dayStart (t : Int) : Int := t - t % msPerDay

/-- The whitespace characters skipped by JS `parseInt` / trimmed by
`Number` (the common ASCII subset; exotic Unicode space characters are not
modelled). -/
def jsSpace (c : Char) : Bool :=
  c = ' ' || c = '\t' || c = '\n' || c = '\r' || c = '\x0b' || c = '\x0c'

/-- Numeric value of a list of decimal digits. -/
def digitsToNat (ds : List Char) : Nat :=
  ds.foldl (fun a c => a * 10 + (c.toNat - 48)) 0

/-- The longest leading run of decimal digits, as a number; `none` when the
list does not start with a digit (JS: NaN). -/
def leadDigits (cs : List Char) : Option Int :=
  let ds := cs.takeWhile (·.isDigit)
  if ds.isEmpty then none else some (digitsToNat ds)

/-- Embedding of JS `parseInt(s, 10)` on the character list of `s`: skip
whitespace, an optional sign, then the longest decimal-digit prefix;
`none` is NaN.  Trailing garbage after the digits is ignored, exactly as
in JS. -/
def parseInt10L (s : List Char) : Option Int :=
  match s.dropWhile jsSpace with
  | '-' :: rest => (leadDigits rest).map (fun n => -n)
  | '+' :: rest => leadDigits rest
  | cs => leadDigits cs

/-- `parseInt(s, 10)` on a string. -/
def parseInt10 (s : String) : Option Int := parseInt10L s.data

/-- All-decimal-digit check. -/
def allDigits (cs : List Char) : Option Int :=
  if cs.isEmpty then none
  else if cs.all (·.isDigit) then some (digitsToNat cs) else none

/-- Embedding of JS `Number(s)` on the integer fragment: whitespace-trimmed
empty string is `0`, otherwise an optional sign followed by decimal digits
only.  `none` covers NaN and also the numeric forms outside the modelled
integer fragment (fractions, exponents, hex, `Infinity`); no theorem below
relies on `none` meaning anything more precise than "not a modelled
integer". -/
def jsNumberL (s : List Char) : Option Int :=
  let cs := ((s.dropWhile jsSpace).reverse.dropWhile jsSpace).reverse
  match cs with
  | [] => some 0
  | '-' :: rest => (allDigits rest).map (fun n => -n)
  | '+' :: rest => allDigits rest
  | _ => allDigits cs

/-- `Number(s)` on a string. -/
def jsNumber (s : String) : Option Int := jsNumberL s.data

/-- JS `String.prototype.trim` (on the modelled whitespace set; defined on
the character list so that it reduces in the kernel). -/
def jsTrim (s : String) : String :=
  ⟨((s.data.dropWhile jsSpace).reverse.dropWhile jsSpace).reverse⟩

/-- Embedding of JS `String.prototype.split` with a single-character
separator: `"".split(sep)` is `[""]`, separators at either end produce
empty fields.  (Defined on character lists so that it reduces in the
kernel, unlike `String.splitOn`.) -/
def splitOnChar (sep : Char) : List Char → List (List Char)
  | [] => [[]]
  | c :: cs =>
    let r := splitOnChar sep cs
    if c = sep then [] :: r
    else
      match r with
      | [] => [[c]]
      | h :: t => (c :: h) :: t

/-- A game server as loaded from the catalog.  `offsetMs` is
`server.offset * 3600000` (`none`: `offset` is not a number); `dailyReset`
is `none` when the field is not a string. -/
structure Server where
  name : String
  offsetMs : Option Int
  dailyReset : Option String
deriving Repr, DecidableEq

/-- A game from the catalog. -/
structure Game where
  id : String
  name : String
  servers : List Server
deriving Repr, DecidableEq

/-- Embedding of the dailies tracker's
`const [resetHours, resetMinutes] = server.dailyReset.split(':').map(Number)`:
the first two `':'`-separated fields through `Number`; a missing second
field destructures to `undefined`, i.e. NaN (`none`). -/
def parseDailyHM (s : String) : Option Int × Option Int :=
  match splitOnChar ':' s.data with
  | [] => (none, none)
  | [a] => (jsNumberL a, none)
  | a :: b :: _ => (jsNumberL a, jsNumberL b)

/-- The reset time of day in milliseconds (`h*3600000 + m*60000`), `none`
when either component is NaN. -/
def resetMsOf (sv : Server) : Option Int :=
  match sv.dailyReset with
  | none => none
  | some s =>
    match parseDailyHM s with
    | (some h, some m) => some (h * 3600000 + m * 60000)
    | _ => none

/-- Embedding of the dailies tracker's `getNextResetUtc(server)` (with the
implicit `Date.now()` made an explicit argument `now`).  `none` models the
NaN result produced when a component of the computation is NaN. -/
def getNextResetUtcD (sv : Server) (now : Int) : Option Int :=
  match sv.offsetMs, resetMsOf sv with
  | some off, some r =>
    let nowServer := now + off
    let todayReset := dayStart nowServer + r
    let next := if todayReset ≤ nowServer then todayReset + msPerDay else todayReset
    some (next - off)
  | _, _ => none

/-- Embedding of the dailies tracker's `getLastResetUtc(server)`. -/
def getLastResetUtcD (sv : Server) (now : Int) : Option Int :=
  match sv.offsetMs, resetMsOf sv with
  | some off, some r =>
    let nowServer := now + off
    let todayReset := dayStart nowServer + r
    let last := if nowServer < todayReset then todayReset - msPerDay else todayReset
    some (last - off)
  | _, _ => none

/-- The validation chain of `app.js` `formatResetTime` as a fallible
parse (the early `return 'Invalid Time'` statements become `none`):
a present, non-empty (JS `!time24` falsiness) string, splitting on `':'`
into exactly two fields, whose `parseInt(·, 10)` values are neither NaN
nor outside `[0,23]` / `[0,59]`. -/
def parseTime24 (t : Option String) : Option (Int × Int) :=
  match t with
  | none => none
  | some s =>
    if s = "" then none
    else
      match splitOnChar ':' s.data with
      | [hs, ms] =>
        match parseInt10L hs, parseInt10L ms with
        | some h, some m =>
          if h < 0 ∨ 23 < h ∨ m < 0 ∨ 59 < m then none else some (h, m)
        | _, _ => none
      | _ => none

/-- The validation chain of `app.js` `getNextResetUtcForServer` (the early
`return new Date(Date.now() + 24h)` statements become `none`), yielding
the offset and the parsed reset hour/minute.  It differs from
`parseTime24` only in not having the `!time24` falsiness shortcut — which
changes nothing, since the empty string also fails the two-field split. -/
def serverResetParse (sv : Server) : Option (Int × Int × Int) :=
  match sv.dailyReset, sv.offsetMs with
  | some ds, some off =>
    match splitOnChar ':' ds.data with
    | [hs, ms] =>
      match parseInt10L hs, parseInt10L ms with
      | some h, some m =>
        if h < 0 ∨ 23 < h ∨ m < 0 ∨ 59 < m then none else some (off, h, m)
      | _, _ => none
    | _ => none
  | _, _ => none

/-- Embedding of `app.js` `getNextResetUtcForServer(server)` (with the
implicit `Date.now()` explicit): on any validation failure the fallback
instant `now + 24h`, otherwise the same next-reset arithmetic as the
dailies version. -/
def getNextResetUtcForServer (sv : Server) (now : Int) : Int :=
  match serverResetParse sv with
  | none => now + msPerDay
  | some (off, h, m) =>
    let r := h * 3600000 + m * 60000
    let nowServer := now + off
    let todayReset := dayStart nowServer + r
    let next := if todayReset ≤ nowServer then todayReset + msPerDay else todayReset
    next - off

/-- `minutes.toString().padStart(2, '0')`. -/
def padMin (m : Int) : String :=
  let t := toString m
  if t.length < 2 then "0" ++ t else t

/-- Embedding of `app.js` `formatResetTime(time24)`.  The argument is
`none` when the JS value is not a string. -/
def formatResetTime (time24 : Option String) : String :=
  match parseTime24 time24 with
  | none => "Invalid Time"
  | some (h, m) =>
    let ampm := if 12 ≤ h then "PM" else "AM"
    let h12 := h % 12
    let h12 := if h12 = 0 then 12 else h12
    toString h12 ++ ":" ++ padMin m ++ " " ++ ampm

/-- The validation performed by `formatResetTime`, as a boolean. -/
def validTime24 (t : Option String) : Bool :=
  (parseTime24 t).isSome

/-- The full server validation performed by `getNextResetUtcForServer`. -/
def serverResetValid (sv : Server) : Bool :=
  (serverResetParse sv).isSome

/-- A catalog server satisfying the data-model invariant of the spec (§3):
numeric offset, `dailyReset` parsing (by the dailies tracker's
`split(':').map(Number)`) to an hour in `[0,23]` and a minute in
`[0,59]`. -/
def ValidServer (sv : Server) : Prop :=
  ∃ o s h m, sv.offsetMs = some o ∧ sv.dailyReset = some s ∧
    parseDailyHM s = (some h, some m) ∧
    0 ≤ h ∧ h ≤ 23 ∧ 0 ≤ m ∧ m ≤ 59

-- Basic bounds used throughout the reset arithmetic.

theorem emod_msPerDay_nonneg (t : Int) : 0 ≤ t % msPerDay := by
  simp only [msPerDay]; omega

theorem emod_msPerDay_lt (t : Int) : t % msPerDay < msPerDay := by
  simp only [msPerDay]; omega

/-- For a valid server, `resetMsOf` succeeds with a value in `[0, 24h)`. -/
theorem resetMsOf_validServer {sv : Server} (h : ValidServer sv) :
    ∃ r, resetMsOf sv = some r ∧ 0 ≤ r ∧ r < msPerDay := by
  obtain ⟨o, s, hh, mm, _, hds, hp, hh0, hh23, hm0, hm59⟩ := h
  refine ⟨hh * 3600000 + mm * 60000, ?_, by omega, by simp only [msPerDay]; omega⟩
  simp only [resetMsOf, hds, hp]

/-- Core bounds of the reset arithmetic for a valid server, shared by the
claims below: the next reset is within `(0, 24h]` of `now` and the last
reset is exactly `next - 24h`, hence at most `now`. -/
theorem resetBounds (sv : Server) (now : Int) (hv : ValidServer sv) :
    ∃ nxt lst, getNextResetUtcD sv now = some nxt ∧
      getLastResetUtcD sv now = some lst ∧
      0 < nxt - now ∧ nxt - now ≤ msPerDay ∧
      lst = nxt - msPerDay ∧ lst ≤ now := by
  obtain ⟨o, s, hh, mm, ho, hds, hp, hb⟩ := hv
  obtain ⟨r, hr, hr0, hrlt⟩ := resetMsOf_validServer ⟨o, s, hh, mm, ho, hds, hp, hb⟩
  have h1 := emod_msPerDay_nonneg (now + o)
  have h2 := emod_msPerDay_lt (now + o)
  simp only [getNextResetUtcD, getLastResetUtcD, ho, hr, dayStart]
  refine ⟨_, _, rfl, rfl, ?_, ?_, ?_, ?_⟩ <;>
    (simp only [msPerDay] at *; split_ifs <;> omega)

/-- C1: for a server with numeric offset and well-formed in-range
`dailyReset`, the next reset is within `(0, 24h]` of `now` and the last
reset lies in `[next - 24h, now]`. -/
theorem nextReset_window_and_lastReset_bounds (sv : Server) (now : Int)
    (hv : ValidServer sv) :
    ∃ nxt lst, getNextResetUtcD sv now = some nxt ∧
      getLastResetUtcD sv now = some lst ∧
      0 < nxt - now ∧ nxt - now ≤ msPerDay ∧
      nxt - msPerDay ≤ lst ∧ lst ≤ now := by
  obtain ⟨nxt, lst, h1, h2, h3, h4, h5, h6⟩ := resetBounds sv now hv
  exact ⟨nxt, lst, h1, h2, h3, h4, le_of_eq h5.symm, h6⟩

/-- C10: for a server with numeric offset and well-formed in-range
`dailyReset`, the last and next reset instants are exactly 24 hours
apart. -/
theorem lastReset_eq_nextReset_sub_day (sv : Server) (now : Int)
    (hv : ValidServer sv) :
    ∃ nxt lst, getNextResetUtcD sv now = some nxt ∧
      getLastResetUtcD sv now = some lst ∧ lst = nxt - msPerDay := by
  obtain ⟨nxt, lst, h1, h2, _, _, h5, _⟩ := resetBounds sv now hv
  exact ⟨nxt, lst, h1, h2, h5⟩

/-- Scenario server of spec §8: UTC+9, daily reset 05:00 server-local. -/
def srvTokyo : Server :=
  { name := "Asia", offsetMs := some 32400000, dailyReset := some "05:00" }

theorem srvTokyo_valid : ValidServer srvTokyo :=
  ⟨32400000, "05:00", 5, 0, rfl, rfl, by decide, by decide, by decide,
    by decide, by decide⟩

/-- Witness for C1 at `now = 2024-01-01T00:00:00Z`. -/
theorem nextReset_window_and_lastReset_bounds_witness :
    ∃ nxt lst, getNextResetUtcD srvTokyo 1704067200000 = some nxt ∧
      getLastResetUtcD srvTokyo 1704067200000 = some lst ∧
      0 < nxt - 1704067200000 ∧ nxt - 1704067200000 ≤ msPerDay ∧
      nxt - msPerDay ≤ lst ∧ lst ≤ 1704067200000 :=
  nextReset_window_and_lastReset_bounds srvTokyo 1704067200000 srvTokyo_valid

/-- Witness for C10 at `now = 2024-01-01T00:00:00Z`. -/
theorem lastReset_eq_nextReset_sub_day_witness :
    ∃ nxt lst, getNextResetUtcD srvTokyo 1704067200000 = some nxt ∧
      getLastResetUtcD srvTokyo 1704067200000 = some lst ∧
      lst = nxt - msPerDay :=
  lastReset_eq_nextReset_sub_day srvTokyo 1704067200000 srvTokyo_valid

/-- Spec §8 Scenario 1, checking the embedding on concrete data: at
`2024-01-01T00:00:00Z` the next reset of `srvTokyo` is
`2024-01-01T20:00:00Z` and the last was `2023-12-31T20:00:00Z`. -/
theorem srvTokyo_scenario1 :
    getNextResetUtcD srvTokyo 1704067200000 = some 1704139200000 ∧
    getLastResetUtcD srvTokyo 1704067200000 = some 1704052800000 ∧
    getNextResetUtcForServer srvTokyo 1704067200000 = 1704139200000 := by
  decide

/-- A server record whose `offset` is not a number but whose `dailyReset`
is perfectly well formed. -/
def srvBadOffset : Server :=
  { name := "EU", offsetMs := none, dailyReset := some "04:00" }

/-- C2 counterexample: `srvBadOffset` has a non-numeric offset, so the
claim asserts the formatting operation returns the sentinel
`"Invalid Time"` for it; but `formatResetTime` only ever sees the
(well-formed) `dailyReset` string and happily formats it as `"4:00 AM"`. -/
theorem formatResetTime_badOffset_counterexample :
    srvBadOffset.offsetMs = none ∧
    formatResetTime srvBadOffset.dailyReset = "4:00 AM" ∧
    formatResetTime srvBadOffset.dailyReset ≠ "Invalid Time" := by
  refine ⟨rfl, by decide, by decide⟩

/-- C2 (amended): whenever the *code's* validation fails — non-string or
empty `dailyReset`, not exactly two `':'`-separated fields, or
`parseInt`-parsed hour/minute NaN or out of range — `formatResetTime`
returns the sentinel `"Invalid Time"`, and whenever `getNextResetUtcForServer`'s
validation fails (same time check, or non-numeric offset) it returns the
fallback instant `now + 24h`.  (Both functions are total: no NaN or
zero-filled result.) -/
theorem invalid_server_sentinel_and_fallback :
    (∀ t : Option String, validTime24 t = false →
      formatResetTime t = "Invalid Time") ∧
    (∀ (sv : Server) (now : Int), serverResetValid sv = false →
      getNextResetUtcForServer sv now = now + msPerDay) := by
  constructor
  · intro t hval
    cases h : parseTime24 t with
    | some v => simp [validTime24, h] at hval
    | none => simp [formatResetTime, h]
  · intro sv now hval
    cases h : serverResetParse sv with
    | some v => simp [serverResetValid, h] at hval
    | none => simp [getNextResetUtcForServer, h]

/-- Witness for the amended C2: a `dailyReset` of `"25:00"` (hour out of
range) is rejected by both functions. -/
theorem invalid_server_sentinel_and_fallback_witness :
    formatResetTime (some "25:00") = "Invalid Time" ∧
    getNextResetUtcForServer ⟨"X", some 0, some "25:00"⟩ 0 = 0 + msPerDay :=
  ⟨invalid_server_sentinel_and_fallback.1 (some "25:00") (by decide),
   invalid_server_sentinel_and_fallback.2 ⟨"X", some 0, some "25:00"⟩ 0 (by decide)⟩

/-!
## Timer/notification scheduler (dailies tracker)

A `Timer` is the persisted record plus its `timeoutHandle` field (the JS
`setTimeout` handle stored on the object by `scheduleTimerNotification`;
browser handles are positive integers, so JS truthiness of the field
coincides with `Option.isSome`).  `AppState` is the scheduler-relevant
part of the `DailiesApp` singleton together with the event loop's queue of
armed one-shot callbacks (`pending`, with `fireAt = now + delay`) and a
ghost log `delivered` of the timer ids whose notification path has run.
The persisted store mirrors `activeTimers` (`saveTimers` writes it on
every mutation), so "persisted list" claims are read off `activeTimers`.
-/

structure Timer where
  id : String
  label : String
  endsAt : Int
  gameId : Option String
  serverName : Option String
  isResetNotification : Bool
  isCustomTimer : Bool
  timeoutHandle : Option Nat
deriving Repr, DecidableEq

/-- An armed `setTimeout` callback: its handle, the timer it will fire,
and the instant it is due. -/
structure Pending where
  handle : Nat
  timerId : String
  fireAt : Int
deriving Repr, DecidableEq

structure AppState where
  activeTimers : List Timer
  pending : List Pending
  nextHandle : Nat
  notifPrefs : List (String × Int)
  delivered : List String
deriving Repr, DecidableEq

def timerIds (s : AppState) : List String := s.activeTimers.map (fun t => t.id)

/-- `clearTimeout(h)` on the callback queue (no-op for `undefined`). -/
def clearHandle (pending : List Pending) (h? : Option Nat) : List Pending :=
  match h? with
  | some h => pending.filter (fun p => p.handle != h)
  | none => pending

/-- Store a fresh handle on the (first) timer with id `tid` — the JS code
mutates the timer object in place. -/
def setHandleFirst : List Timer → String → Nat → List Timer
  | [], _, _ => []
  | t :: ts, tid, h =>
    if t.id = tid then { t with timeoutHandle := some h } :: ts
    else t :: setHandleFirst ts tid h

/-- Embedding of `scheduleTimerNotification(timer, delay)`: clear any
existing timeout for the timer, then arm a fresh one-shot callback and
record its handle on the timer.  (At every call site the timer is in
`activeTimers`, which is how the object argument is located here.) -/
def scheduleTimerNotification (s : AppState) (tid : String) (delay : Int)
    (now : Int) : AppState :=
  match s.activeTimers.find? (fun t => t.id == tid) with
  | none => s
  | some t =>
    { s with
      pending := clearHandle s.pending t.timeoutHandle ++
        [⟨s.nextHandle, tid, now + delay⟩],
      activeTimers := setHandleFirst s.activeTimers tid s.nextHandle,
      nextHandle := s.nextHandle + 1 }

/-- The handle held by the (first) timer with id `tid`, if any: the JS
guard `timer && timer.timeoutHandle`. -/
def foundHandle (s : AppState) (tid : String) : Option Nat :=
  match s.activeTimers.find? (fun t => t.id == tid) with
  | some t => t.timeoutHandle
  | none => none

/-- Embedding of `removeTimer(timerId)`: clear the found timer's pending
callback (if any) and drop every timer with that id from the list. -/
def removeTimer (s : AppState) (tid : String) : AppState :=
  { s with
    activeTimers := s.activeTimers.filter (fun t => t.id != tid),
    pending := clearHandle s.pending (foundHandle s tid) }

/-- Embedding of `setCustomTimer(label, hours, minutes)`; `fresh` is the
id produced by `generateId()`. -/
def setCustomTimer (s : AppState) (now : Int) (label : String)
    (hours minutes : Int) (fresh : String) : AppState :=
  if jsTrim label = "" then s
  else
    let totalMs := hours * 3600000 + minutes * 60000
    if totalMs ≤ 0 then s
    else
      let timer : Timer :=
        { id := fresh, label := jsTrim label, endsAt := now + totalMs,
          gameId := none, serverName := none,
          isResetNotification := false, isCustomTimer := true,
          timeoutHandle := none }
      scheduleTimerNotification
        { s with activeTimers := s.activeTimers ++ [timer] } fresh totalMs now

/-- `this.notifications[key] = { beforeReset: v }` on the association
list. -/
def setPref (l : List (String × Int)) (k : String) (v : Int) :
    List (String × Int) :=
  if l.any (fun e => e.1 == k) then l.map (fun e => if e.1 = k then (k, v) else e)
  else l ++ [(k, v)]

def lookupPref (l : List (String × Int)) (k : String) : Option Int :=
  (l.find? (fun e => e.1 == k)).map (fun e => e.2)

/-- `getGameById` followed by `game?.servers?.find(...)`. -/
def resolveServer (games : List Game) (gameId serverName : String) :
    Option Server :=
  match games.find? (fun g => g.id == gameId) with
  | none => none
  | some g => g.servers.find? (fun sv => sv.name == serverName)

/-- Embedding of `scheduleResetNotification(gameId, serverName,
minutesBefore)`.  The `getNextResetUtcD = none` (NaN) branch is modelled
as a no-op; in JS it would build a timer with NaN `endsAt`, but it is
unreachable for catalogs satisfying the §3 `ValidServer` invariant, under
which all claims about this operation are stated. -/
def scheduleResetNotification (games : List Game) (s : AppState)
    (gameId serverName : String) (minutesBefore : Int) (now : Int)
    (fresh : String) : AppState :=
  match games.find? (fun g => g.id == gameId) with
  | none => s
  | some g =>
    match g.servers.find? (fun sv => sv.name == serverName) with
    | none => s
    | some sv =>
      match getNextResetUtcD sv now with
      | none => s
      | some next =>
        let notifyAt := next - minutesBefore * 60000
        if notifyAt ≤ now then s
        else
          let key := gameId ++ ":" ++ serverName
          let timer : Timer :=
            { id := fresh, label := g.name ++ " (" ++ serverName ++ ") Reset",
              endsAt := notifyAt, gameId := some gameId,
              serverName := some serverName, isResetNotification := true,
              isCustomTimer := false, timeoutHandle := none }
          scheduleTimerNotification
            { s with notifPrefs := setPref s.notifPrefs key minutesBefore,
                     activeTimers := s.activeTimers ++ [timer] }
            fresh (notifyAt - now) now

/-- The event loop fires the armed callback with handle `h`: the timeout
leaves the queue, the callback body sends the notification for the
captured timer and then calls `removeTimer`. -/
def fireTimeout (s : AppState) (h : Nat) : AppState :=
  match s.pending.find? (fun p => p.handle == h) with
  | none => s
  | some p =>
    removeTimer
      { s with pending := s.pending.filter (fun q => q.handle != h),
               delivered := s.delivered ++ [p.timerId] }
      p.timerId

/-- Body of the safety-net loop for one expired timer: send its
notification, then `removeTimer`. -/
def fireExpired (s : AppState) (t : Timer) : AppState :=
  removeTimer { s with delivered := s.delivered ++ [t.id] } t.id

/-- `activeTimers.filter(t => t.endsAt <= now && !t.timeoutHandle)`. -/
def expiredNoHandle (s : AppState) (now : Int) : List Timer :=
  s.activeTimers.filter (fun t => decide (t.endsAt ≤ now) && t.timeoutHandle.isNone)

/-- Embedding of the 1 Hz safety-net sweep `checkExpiredTimers()`. -/
def checkExpiredTimers (s : AppState) (now : Int) : AppState :=
  (expiredNoHandle s now).foldl fireExpired s

/-- Embedding of the timer-recovery part of `loadFromStorage()`: the
persisted list is filtered, dropping timers with no remaining time and
re-arming the rest; the second component records the
`scheduleTimerNotification(timer, remaining)` calls made (timer id and
delay). -/
def recoverTimers (persisted : List Timer) (now : Int) :
    List Timer × List (String × Int) :=
  match persisted with
  | [] => ([], [])
  | t :: ts =>
    let r := recoverTimers ts now
    if t.endsAt - now ≤ 0 then r
    else (t :: r.1, (t.id, t.endsAt - now) :: r.2)

-- Helper lemmas about locating a freshly appended timer.

theorem find?_append_fresh (l : List Timer) (t : Timer) (tid : String)
    (hid : t.id = tid) (h : tid ∉ l.map (fun x => x.id)) :
    (l ++ [t]).find? (fun x => x.id == tid) = some t := by
  induction l with
  | nil => simp [hid]
  | cons a as ih =>
    simp only [List.map_cons, List.mem_cons, not_or] at h
    obtain ⟨h1, h2⟩ := h
    rw [List.cons_append, List.find?_cons_of_neg, ih h2]
    simp only [beq_iff_eq]
    exact fun hc => h1 hc.symm

theorem setHandleFirst_append_fresh (l : List Timer) (t : Timer) (tid : String)
    (hn : Nat) (hid : t.id = tid) (h : tid ∉ l.map (fun x => x.id)) :
    setHandleFirst (l ++ [t]) tid hn = l ++ [{ t with timeoutHandle := some hn }] := by
  induction l with
  | nil => simp [setHandleFirst, hid]
  | cons a as ih =>
    simp only [List.map_cons, List.mem_cons, not_or] at h
    obtain ⟨h1, h2⟩ := h
    rw [List.cons_append, setHandleFirst, if_neg (fun hc => h1 hc.symm), ih h2,
      List.cons_append]

/-- Arming the callback of a freshly appended timer: the common tail of
`setCustomTimer` and `scheduleResetNotification`. -/
theorem scheduleTimerNotification_append_fresh (s : AppState) (l : List Timer)
    (t : Timer) (tid : String) (delay now : Int)
    (hact : s.activeTimers = l ++ [t]) (hid : t.id = tid)
    (hfresh : tid ∉ l.map (fun x => x.id)) (hth : t.timeoutHandle = none) :
    scheduleTimerNotification s tid delay now =
      { s with
        activeTimers := l ++ [{ t with timeoutHandle := some s.nextHandle }],
        pending := s.pending ++ [⟨s.nextHandle, tid, now + delay⟩],
        nextHandle := s.nextHandle + 1 } := by
  unfold scheduleTimerNotification
  rw [hact, find?_append_fresh _ _ _ hid hfresh,
    setHandleFirst_append_fresh _ _ _ _ hid hfresh]
  simp [clearHandle, hth]

/-- C3: `setCustomTimer` is a strict no-op on an empty (trimmed) label or
a non-positive total duration; on valid input it appends exactly one
custom timer with `endsAt = now + duration` and arms exactly one callback
due at `endsAt` (i.e. with delay `endsAt - now`). -/
theorem setCustomTimer_spec (s : AppState) (now : Int) (label : String)
    (hours minutes : Int) (fresh : String) :
    ((jsTrim label = "" ∨ hours * 3600000 + minutes * 60000 ≤ 0) →
      setCustomTimer s now label hours minutes fresh = s) ∧
    (jsTrim label ≠ "" → 0 < hours * 3600000 + minutes * 60000 →
      fresh ∉ timerIds s →
      (setCustomTimer s now label hours minutes fresh).activeTimers =
        s.activeTimers ++
          [{ id := fresh, label := jsTrim label,
             endsAt := now + (hours * 3600000 + minutes * 60000),
             gameId := none, serverName := none, isResetNotification := false,
             isCustomTimer := true, timeoutHandle := some s.nextHandle }] ∧
      (setCustomTimer s now label hours minutes fresh).pending =
        s.pending ++
          [⟨s.nextHandle, fresh, now + (hours * 3600000 + minutes * 60000)⟩] ∧
      (setCustomTimer s now label hours minutes fresh).notifPrefs = s.notifPrefs ∧
      (setCustomTimer s now label hours minutes fresh).delivered = s.delivered) := by
  constructor
  · rintro (h | h)
    · simp [setCustomTimer, h]
    · by_cases hl : jsTrim label = ""
      · simp [setCustomTimer, hl]
      · simp [setCustomTimer, hl, h]
  · intro hl hpos hfresh
    have hs := scheduleTimerNotification_append_fresh
      { s with activeTimers := s.activeTimers ++
          [{ id := fresh, label := jsTrim label,
             endsAt := now + (hours * 3600000 + minutes * 60000),
             gameId := none, serverName := none, isResetNotification := false,
             isCustomTimer := true, timeoutHandle := none }] }
      s.activeTimers
      { id := fresh, label := jsTrim label,
        endsAt := now + (hours * 3600000 + minutes * 60000),
        gameId := none, serverName := none, isResetNotification := false,
        isCustomTimer := true, timeoutHandle := none }
      fresh (hours * 3600000 + minutes * 60000) now rfl rfl hfresh rfl
    simp only [setCustomTimer, if_neg hl,
      if_neg (by omega : ¬ hours * 3600000 + minutes * 60000 ≤ 0), hs]
    exact ⟨trivial, trivial, trivial, trivial⟩

/-- Witness for C3: in the empty scheduler state, a zero-duration request
is a strict no-op and a `0h 30m` timer is appended and armed. -/
theorem setCustomTimer_spec_witness :
    (setCustomTimer ⟨[], [], 1, [], []⟩ 0 "tea" 0 0 "a" = ⟨[], [], 1, [], []⟩) ∧
    (setCustomTimer ⟨[], [], 1, [], []⟩ 0 "tea" 0 30 "a").activeTimers =
      ([] : List Timer) ++
        [{ id := "a", label := jsTrim "tea", endsAt := 0 + (0 * 3600000 + 30 * 60000),
           gameId := none, serverName := none, isResetNotification := false,
           isCustomTimer := true, timeoutHandle := some 1 }] ∧
    (setCustomTimer ⟨[], [], 1, [], []⟩ 0 "tea" 0 30 "a").pending =
      ([] : List Pending) ++ [⟨1, "a", 0 + (0 * 3600000 + 30 * 60000)⟩] :=
  ⟨(setCustomTimer_spec ⟨[], [], 1, [], []⟩ 0 "tea" 0 0 "a").1 (Or.inr (by decide)),
   ((setCustomTimer_spec ⟨[], [], 1, [], []⟩ 0 "tea" 0 30 "a").2
      (by decide) (by decide) (by decide)).1,
   ((setCustomTimer_spec ⟨[], [], 1, [], []⟩ 0 "tea" 0 30 "a").2
      (by decide) (by decide) (by decide)).2.1⟩

theorem find?_filter_ne_eq_none (l : List Timer) (tid : String) :
    (l.filter (fun t => t.id != tid)).find? (fun t => t.id == tid) = none := by
  apply List.find?_eq_none.mpr
  intro x hx
  have hx2 := (List.mem_filter.mp hx).2
  simp only [bne_iff_ne, ne_eq] at hx2
  simp [hx2]

/-- `removeTimer` with no matching timer is a strict no-op (no callback is
cleared, the list is unchanged). -/
theorem removeTimer_no_match (s : AppState) (tid : String)
    (h : s.activeTimers.find? (fun t => t.id == tid) = none) :
    removeTimer s tid = s := by
  have hfilter : s.activeTimers.filter (fun t => t.id != tid) = s.activeTimers := by
    apply List.filter_eq_self.mpr
    intro a ha
    have := List.find?_eq_none.mp h a ha
    simpa [bne_iff_ne] using this
  unfold removeTimer foundHandle
  rw [h, hfilter]
  rfl

/-- C9: `cancel(timerId)` removes exactly the timers with that id (leaving
all others in place, in order), clears the found timer's pending callback,
and is idempotent: with no matching timer it is a strict no-op, and a
second call with the same id changes nothing. -/
theorem removeTimer_spec (s : AppState) (tid : String) :
    (removeTimer s tid).activeTimers = s.activeTimers.filter (fun t => t.id != tid) ∧
    removeTimer (removeTimer s tid) tid = removeTimer s tid ∧
    (s.activeTimers.find? (fun t => t.id == tid) = none → removeTimer s tid = s) ∧
    (∀ t, s.activeTimers.find? (fun t => t.id == tid) = some t →
      ∀ h, t.timeoutHandle = some h →
        ∀ p ∈ (removeTimer s tid).pending, p.handle ≠ h) := by
  refine ⟨rfl, ?_, removeTimer_no_match s tid, ?_⟩
  · exact removeTimer_no_match (removeTimer s tid) tid
      (find?_filter_ne_eq_none s.activeTimers tid)
  · intro t hfind h hh p hp
    have e2 : foundHandle s tid = some h := by
      unfold foundHandle
      rw [hfind]
      exact hh
    have hp2 : p ∈ s.pending.filter (fun q => q.handle != h) := by
      have e : removeTimer s tid =
          { s with activeTimers := s.activeTimers.filter (fun t => t.id != tid),
                   pending := s.pending.filter (fun q => q.handle != h) } := by
        unfold removeTimer
        rw [e2]
        rfl
      rw [e] at hp
      exact hp
    have := (List.mem_filter.mp hp2).2
    simpa [bne_iff_ne] using this

/-- Witness for C9: cancelling an absent id is a no-op; cancelling `"a"`
clears its armed callback (handle 5) while the other callback
survives. -/
theorem removeTimer_spec_witness :
    removeTimer ⟨[], [], 1, [], []⟩ "z" = ⟨[], [], 1, [], []⟩ ∧
    (7 : Nat) ≠ 5 :=
  ⟨(removeTimer_spec ⟨[], [], 1, [], []⟩ "z").2.2.1 (by decide),
   (removeTimer_spec
      ⟨[⟨"a", "x", 10, none, none, false, true, some 5⟩],
       [⟨5, "a", 10⟩, ⟨7, "b", 20⟩], 8, [], []⟩ "a").2.2.2
     ⟨"a", "x", 10, none, none, false, true, some 5⟩ (by decide) 5 rfl
     ⟨7, "b", 20⟩ (by decide)⟩

theorem recoverTimers_eq (persisted : List Timer) (now : Int) :
    recoverTimers persisted now =
      (persisted.filter (fun t => decide (now < t.endsAt)),
       (persisted.filter (fun t => decide (now < t.endsAt))).map
         (fun t => (t.id, t.endsAt - now))) := by
  induction persisted with
  | nil => rfl
  | cons t ts ih =>
    simp only [recoverTimers, ih, List.filter_cons]
    by_cases h : t.endsAt - now ≤ 0
    · rw [if_pos h]
      have h2 : ¬ (now < t.endsAt) := by omega
      simp [h2]
    · rw [if_neg h]
      have h2 : now < t.endsAt := by omega
      simp [h2]

/-- C6: restart recovery keeps exactly the persisted timers with
`endsAt > now` (in order), re-arming each with delay exactly
`endsAt - now`; expired timers (`endsAt ≤ now`) are dropped and every
re-arm call stems from a kept, unexpired timer. -/
theorem loadRecovery_spec (persisted : List Timer) (now : Int) :
    (recoverTimers persisted now).1 =
      persisted.filter (fun t => decide (now < t.endsAt)) ∧
    (recoverTimers persisted now).2 =
      ((recoverTimers persisted now).1).map (fun t => (t.id, t.endsAt - now)) ∧
    (∀ t ∈ persisted, t.endsAt ≤ now → t ∉ (recoverTimers persisted now).1) ∧
    (∀ e ∈ (recoverTimers persisted now).2, ∃ t,
      t ∈ (recoverTimers persisted now).1 ∧ now < t.endsAt ∧
      e = (t.id, t.endsAt - now)) ∧
    (∀ t ∈ persisted, now < t.endsAt →
      t ∈ (recoverTimers persisted now).1 ∧
      (t.id, t.endsAt - now) ∈ (recoverTimers persisted now).2) := by
  rw [recoverTimers_eq]
  refine ⟨rfl, rfl, ?_, ?_, ?_⟩
  · intro t _ hle hmem
    have := (List.mem_filter.mp hmem).2
    simp only [decide_eq_true_eq] at this
    omega
  · intro e he
    obtain ⟨t, ht, rfl⟩ := List.mem_map.mp he
    have := (List.mem_filter.mp ht).2
    simp only [decide_eq_true_eq] at this
    exact ⟨t, ht, this, rfl⟩
  · intro t ht hlt
    have hmem : t ∈ persisted.filter (fun t => decide (now < t.endsAt)) :=
      List.mem_filter.mpr ⟨ht, by simpa using hlt⟩
    exact ⟨hmem, List.mem_map.mpr ⟨t, hmem, rfl⟩⟩

/-- Witness for C6 at `now = 100`: an expired timer (`endsAt = 50`) is
dropped, a live one (`endsAt = 200`) is kept and re-armed with delay
exactly `100`. -/
theorem loadRecovery_spec_witness :
    (⟨"e", "old", 50, none, none, false, true, none⟩ : Timer) ∉
      (recoverTimers [⟨"e", "old", 50, none, none, false, true, none⟩,
        ⟨"l", "new", 200, none, none, false, true, none⟩] 100).1 ∧
    (⟨"l", "new", 200, none, none, false, true, none⟩ : Timer) ∈
      (recoverTimers [⟨"e", "old", 50, none, none, false, true, none⟩,
        ⟨"l", "new", 200, none, none, false, true, none⟩] 100).1 ∧
    ("l", (100 : Int)) ∈
      (recoverTimers [⟨"e", "old", 50, none, none, false, true, none⟩,
        ⟨"l", "new", 200, none, none, false, true, none⟩] 100).2 :=
  ⟨(loadRecovery_spec _ 100).2.2.1 _ (by decide) (by decide),
   ((loadRecovery_spec [⟨"e", "old", 50, none, none, false, true, none⟩,
        ⟨"l", "new", 200, none, none, false, true, none⟩] 100).2.2.2.2 _
      (by decide) (by decide)).1,
   ((loadRecovery_spec [⟨"e", "old", 50, none, none, false, true, none⟩,
        ⟨"l", "new", 200, none, none, false, true, none⟩] 100).2.2.2.2
      ⟨"l", "new", 200, none, none, false, true, none⟩
      (by decide) (by decide)).2⟩

theorem find?_overwrite (k : String) (v : Int) :
    ∀ l : List (String × Int), l.any (fun e => e.1 == k) = true →
      (l.map (fun e => if e.1 = k then (k, v) else e)).find?
        (fun e => e.1 == k) = some (k, v)
  | [], h => by simp at h
  | e :: es, h => by
    by_cases he : e.1 = k
    · simp [he]
    · have h2 : es.any (fun e => e.1 == k) = true := by
        simpa [he] using h
      simp only [List.map_cons, if_neg he]
      rw [List.find?_cons_of_neg]
      · exact find?_overwrite k v es h2
      · simp [he]

theorem find?_append_pref (k : String) (v : Int) :
    ∀ l : List (String × Int), (∀ e ∈ l, e.1 ≠ k) →
      (l ++ [(k, v)]).find? (fun e => e.1 == k) = some (k, v)
  | [], _ => by simp
  | e :: es, h => by
    rw [List.cons_append, List.find?_cons_of_neg]
    · exact find?_append_pref k v es
        (fun x hx => h x (List.mem_cons_of_mem e hx))
    · simp [h e (List.mem_cons_self e es)]

/-- Overwriting a preference makes it the stored value for that key. -/
theorem lookupPref_setPref (l : List (String × Int)) (k : String) (v : Int) :
    lookupPref (setPref l k v) k = some v := by
  unfold setPref lookupPref
  by_cases h : l.any (fun e => e.1 == k)
  · rw [if_pos h, find?_overwrite k v l h]
    rfl
  · have hnone : ∀ e ∈ l, e.1 ≠ k := by
      intro e he hek
      exact h (List.any_eq_true.mpr ⟨e, he, by simp [hek]⟩)
    rw [if_neg h, find?_append_pref k v l hnone]
    rfl

/-- C4: `scheduleResetNotification` computes
`notifyAt = nextResetUtc - minutesBefore*60000`; if `notifyAt ≤ now` it is
a strict no-op (no timer, preferences untouched); otherwise it overwrites
the `NotificationPreference` for `gameId:serverName` with `minutesBefore`
and appends exactly one timer tagged `isResetNotification` with
`endsAt = notifyAt`, arming one callback due at `notifyAt`. -/
theorem scheduleResetNotification_spec (games : List Game) (s : AppState)
    (gameId serverName : String) (mb now : Int) (fresh : String)
    (g : Game) (sv : Server) (next : Int)
    (hg : games.find? (fun g => g.id == gameId) = some g)
    (hsv : g.servers.find? (fun sv => sv.name == serverName) = some sv)
    (hnext : getNextResetUtcD sv now = some next) :
    (next - mb * 60000 ≤ now →
      scheduleResetNotification games s gameId serverName mb now fresh = s) ∧
    (now < next - mb * 60000 → fresh ∉ timerIds s →
      (scheduleResetNotification games s gameId serverName mb now fresh).notifPrefs =
        setPref s.notifPrefs (gameId ++ ":" ++ serverName) mb ∧
      lookupPref
        (scheduleResetNotification games s gameId serverName mb now fresh).notifPrefs
        (gameId ++ ":" ++ serverName) = some mb ∧
      (scheduleResetNotification games s gameId serverName mb now fresh).activeTimers =
        s.activeTimers ++
          [{ id := fresh, label := g.name ++ " (" ++ serverName ++ ") Reset",
             endsAt := next - mb * 60000, gameId := some gameId,
             serverName := some serverName, isResetNotification := true,
             isCustomTimer := false, timeoutHandle := some s.nextHandle }] ∧
      (scheduleResetNotification games s gameId serverName mb now fresh).pending =
        s.pending ++ [⟨s.nextHandle, fresh, next - mb * 60000⟩] ∧
      (scheduleResetNotification games s gameId serverName mb now fresh).delivered =
        s.delivered) := by
  constructor
  · intro hle
    simp only [scheduleResetNotification, hg, hsv, hnext, if_pos hle]
  · intro hgt hfresh
    have hs := scheduleTimerNotification_append_fresh
      { s with
        notifPrefs := setPref s.notifPrefs (gameId ++ ":" ++ serverName) mb,
        activeTimers := s.activeTimers ++
          [{ id := fresh, label := g.name ++ " (" ++ serverName ++ ") Reset",
             endsAt := next - mb * 60000, gameId := some gameId,
             serverName := some serverName, isResetNotification := true,
             isCustomTimer := false, timeoutHandle := none }] }
      s.activeTimers
      { id := fresh, label := g.name ++ " (" ++ serverName ++ ") Reset",
        endsAt := next - mb * 60000, gameId := some gameId,
        serverName := some serverName, isResetNotification := true,
        isCustomTimer := false, timeoutHandle := none }
      fresh (next - mb * 60000 - now) now rfl rfl hfresh rfl
    have harith : now + (next - mb * 60000 - now) = next - mb * 60000 := by ring
    rw [harith] at hs
    simp only [scheduleResetNotification, hg, hsv, hnext,
      if_neg (not_le.mpr hgt), hs]
    exact ⟨trivial, lookupPref_setPref s.notifPrefs (gameId ++ ":" ++ serverName) mb,
      trivial, trivial, trivial⟩

/-- Witness for C4 (spec §8 Scenario 4 shape): with the next reset 20
minutes away, a 30-minutes-before request is rejected without mutation,
while a 10-minutes-before request stores the preference and arms one
reset-notification timer. -/
theorem scheduleResetNotification_spec_witness :
    scheduleResetNotification [⟨"g", "G", [srvTokyo]⟩] ⟨[], [], 1, [], []⟩
      "g" "Asia" 30 1704138000000 "a" = ⟨[], [], 1, [], []⟩ ∧
    lookupPref
      (scheduleResetNotification [⟨"g", "G", [srvTokyo]⟩] ⟨[], [], 1, [], []⟩
        "g" "Asia" 10 1704138000000 "a").notifPrefs ("g" ++ ":" ++ "Asia") =
      some 10 :=
  ⟨(scheduleResetNotification_spec [⟨"g", "G", [srvTokyo]⟩] ⟨[], [], 1, [], []⟩
      "g" "Asia" 30 1704138000000 "a" ⟨"g", "G", [srvTokyo]⟩ srvTokyo
      1704139200000 (by decide) (by decide) (by decide)).1 (by decide),
   ((scheduleResetNotification_spec [⟨"g", "G", [srvTokyo]⟩] ⟨[], [], 1, [], []⟩
      "g" "Asia" 10 1704138000000 "a" ⟨"g", "G", [srvTokyo]⟩ srvTokyo
      1704139200000 (by decide) (by decide) (by decide)).2 (by decide)
      (by decide)).2.1⟩

/-!
## Checklist / auto-reset tracker

`lastResetCheck` is an integer timestamp; the JS guard
`checklist.lastResetCheck || 0` is the identity on integers and is
therefore dropped in the embedding.
-/

structure ChecklistItem where
  id : String
  label : String
  checked : Bool
  createdAt : Int
deriving Repr, DecidableEq

structure Checklist where
  items : List ChecklistItem
  lastResetCheck : Int
deriving Repr, DecidableEq

/-- `const [gameId, serverName] = key.split(':')`: the second component is
`none` (JS `undefined`) when the key has no `':'`. -/
def keyParts (key : String) : String × Option String :=
  match splitOnChar ':' key.data with
  | [] => ("", none)
  | [g] => (⟨g⟩, none)
  | g :: snm :: _ => (⟨g⟩, some ⟨snm⟩)

/-- Resolving a checklist key against the catalog: `getGameById` then
`game.servers?.find(s => s.name === serverName)`.  An `undefined` server
name matches nothing. -/
def resolveKey (games : List Game) (key : String) : Option Server :=
  match games.find? (fun g => g.id == (keyParts key).1) with
  | none => none
  | some g =>
    match (keyParts key).2 with
    | none => none
    | some snm => g.servers.find? (fun sv => sv.name == snm)

/-- The body of `checkAutoReset` for one checklist entry: skip if the game
or server no longer exists, skip if the last reset is not newer than
`lastResetCheck` (a NaN last reset compares false), otherwise uncheck every
item and advance `lastResetCheck` to `now`. -/
def sweepEntry (games : List Game) (now : Int) (key : String)
    (c : Checklist) : Checklist :=
  match resolveKey games key with
  | none => c
  | some sv =>
    match getLastResetUtcD sv now with
    | none => c
    | some lastReset =>
      if c.lastResetCheck < lastReset then
        { items := c.items.map (fun it => { it with checked := false }),
          lastResetCheck := now }
      else c

/-- Embedding of `checkAutoReset()` over the checklists map (as an
association list). -/
def checkAutoReset (games : List Game) (cls : List (String × Checklist))
    (now : Int) : List (String × Checklist) :=
  cls.map (fun e => (e.1, sweepEntry games now e.1 e.2))

theorem resolveKey_mem {games : List Game} {key : String} {sv : Server}
    (h : resolveKey games key = some sv) :
    ∃ g, g ∈ games ∧ sv ∈ g.servers := by
  unfold resolveKey at h
  cases hg : games.find? (fun g => g.id == (keyParts key).1) with
  | none => rw [hg] at h; exact absurd h (by simp)
  | some g =>
    rw [hg] at h
    cases hk : (keyParts key).2 with
    | none => rw [hk] at h; exact absurd h (by simp)
    | some snm =>
      rw [hk] at h
      exact ⟨g, List.mem_of_find?_eq_some hg, List.mem_of_find?_eq_some h⟩

/-- A resolved, last-reset branch of the sweep in closed form. -/
theorem sweepEntry_resolved (games : List Game) (key : String) (sv : Server)
    (now : Int) (c : Checklist) (L : Int)
    (hres : resolveKey games key = some sv)
    (hL : getLastResetUtcD sv now = some L) :
    sweepEntry games now key c =
      if c.lastResetCheck < L then
        { items := c.items.map (fun it => { it with checked := false }),
          lastResetCheck := now }
      else c := by
  unfold sweepEntry
  simp only [hres, hL]

/-- The last reset instant is stable while `now` advances inside one reset
window (before the next reset): the sweep's reference point does not move
until a new reset actually occurs. -/
theorem lastReset_stable (sv : Server) (now now2 next : Int)
    (hv : ValidServer sv) (h12 : now ≤ now2)
    (hnext : getNextResetUtcD sv now = some next) (hlt : now2 < next) :
    getLastResetUtcD sv now2 = getLastResetUtcD sv now := by
  obtain ⟨o, s, hh, mm, ho, hds, hp, hb⟩ := hv
  obtain ⟨r, hr, hr0, hrlt⟩ := resetMsOf_validServer ⟨o, s, hh, mm, ho, hds, hp, hb⟩
  have h1 := emod_msPerDay_nonneg (now + o)
  have h2 := emod_msPerDay_lt (now + o)
  have h3 := emod_msPerDay_nonneg (now2 + o)
  have h4 := emod_msPerDay_lt (now2 + o)
  simp only [getNextResetUtcD, ho, hr, dayStart, Option.some.injEq] at hnext
  simp only [getLastResetUtcD, ho, hr, dayStart, Option.some.injEq]
  simp only [msPerDay] at *
  split_ifs at hnext ⊢ <;> omega

/-- C8: the auto-reset sweep only clears checked flags.  `checkAutoReset`
maps `sweepEntry` over the entries, deleting none and keeping every key;
per entry the item list is either untouched or has exactly its `checked`
fields set to `false` (ids, labels, `createdAt` and the item count are
preserved by the map); and an entry whose game or server is absent from
the catalog is left entirely unchanged, `lastResetCheck` included. -/
theorem autoReset_frame (games : List Game) (cls : List (String × Checklist))
    (now : Int) (key : String) (c : Checklist) :
    checkAutoReset games cls now =
      cls.map (fun e => (e.1, sweepEntry games now e.1 e.2)) ∧
    (checkAutoReset games cls now).map Prod.fst = cls.map Prod.fst ∧
    ((sweepEntry games now key c).items = c.items ∨
      (sweepEntry games now key c).items =
        c.items.map (fun it => { it with checked := false })) ∧
    (resolveKey games key = none → sweepEntry games now key c = c) := by
  refine ⟨rfl, ?_, ?_, ?_⟩
  · simp [checkAutoReset]
  · unfold sweepEntry
    split
    · exact Or.inl rfl
    · split
      · exact Or.inl rfl
      · split
        · exact Or.inr rfl
        · exact Or.inl rfl
  · intro h
    unfold sweepEntry
    rw [h]

/-- Witness for C8: a checklist keyed to a game absent from the (empty)
catalog survives a sweep byte-for-byte. -/
theorem autoReset_frame_witness :
    sweepEntry [] 0 "a:b" ⟨[⟨"i", "task", true, 0⟩], 0⟩ =
      ⟨[⟨"i", "task", true, 0⟩], 0⟩ :=
  (autoReset_frame [] [] 0 "a:b" ⟨[⟨"i", "task", true, 0⟩], 0⟩).2.2.2 (by decide)

/-- C5: across sweeps, `lastResetCheck` never decreases (for catalogs
whose servers satisfy the §3 invariant), and the sweep is idempotent
within one reset window: a second sweep at the same or a later instant
that still precedes the next reset changes nothing — neither
`lastResetCheck` nor any item. -/
theorem autoReset_monotone_idempotent :
    (∀ (games : List Game) (now : Int) (key : String) (c : Checklist),
      (∀ g ∈ games, ∀ sv ∈ g.servers, ValidServer sv) →
      c.lastResetCheck ≤ (sweepEntry games now key c).lastResetCheck) ∧
    (∀ (games : List Game) (now now2 : Int) (key : String) (c : Checklist)
      (sv : Server) (next : Int),
      resolveKey games key = some sv → ValidServer sv →
      now ≤ now2 → getNextResetUtcD sv now = some next → now2 < next →
      sweepEntry games now2 key (sweepEntry games now key c) =
        sweepEntry games now key c) := by
  constructor
  · intro games now key c hvalid
    cases hres : resolveKey games key with
    | none =>
      unfold sweepEntry
      rw [hres]
    | some sv =>
      obtain ⟨g, hg, hsv⟩ := resolveKey_mem hres
      have hv := hvalid g hg sv hsv
      obtain ⟨nxt, lst, hn, hL, _, _, _, hle⟩ := resetBounds sv now hv
      rw [sweepEntry_resolved games key sv now c lst hres hL]
      by_cases hc : c.lastResetCheck < lst
      · rw [if_pos hc]
        show c.lastResetCheck ≤ now
        omega
      · rw [if_neg hc]
  · intro games now now2 key c sv next hres hv h12 hnext hlt
    obtain ⟨nxt, lst, hn, hL, _, _, _, hle⟩ := resetBounds sv now hv
    have hL2 : getLastResetUtcD sv now2 = some lst := by
      rw [lastReset_stable sv now now2 next hv h12 hnext hlt]
      exact hL
    rw [sweepEntry_resolved games key sv now c lst hres hL]
    by_cases hc : c.lastResetCheck < lst
    · rw [if_pos hc,
        sweepEntry_resolved games key sv now2 _ lst hres hL2,
        if_neg (by show ¬ now < lst; omega)]
    · rw [if_neg hc,
        sweepEntry_resolved games key sv now2 c lst hres hL2,
        if_neg hc]

/-- Witness for C5 with the §8 scenario server: one sweep at
`2024-01-01T00:00:00Z` (after the `2023-12-31T20:00Z` reset) advances
`lastResetCheck`; a second sweep one second later, still before the next
reset, changes nothing. -/
theorem autoReset_monotone_idempotent_witness :
    (⟨[⟨"i", "t", true, 0⟩], 1704052799999⟩ : Checklist).lastResetCheck ≤
      (sweepEntry [⟨"g", "G", [srvTokyo]⟩] 1704067200000 "g:Asia"
        ⟨[⟨"i", "t", true, 0⟩], 1704052799999⟩).lastResetCheck ∧
    sweepEntry [⟨"g", "G", [srvTokyo]⟩] 1704067201000 "g:Asia"
        (sweepEntry [⟨"g", "G", [srvTokyo]⟩] 1704067200000 "g:Asia"
          ⟨[⟨"i", "t", true, 0⟩], 1704052799999⟩) =
      sweepEntry [⟨"g", "G", [srvTokyo]⟩] 1704067200000 "g:Asia"
        ⟨[⟨"i", "t", true, 0⟩], 1704052799999⟩ :=
  ⟨autoReset_monotone_idempotent.1 [⟨"g", "G", [srvTokyo]⟩] 1704067200000
     "g:Asia" ⟨[⟨"i", "t", true, 0⟩], 1704052799999⟩
     (by
       intro g hg sv hsv
       simp only [List.mem_singleton] at hg
       subst hg
       simp only [List.mem_singleton] at hsv
       subst hsv
       exact srvTokyo_valid),
   autoReset_monotone_idempotent.2 [⟨"g", "G", [srvTokyo]⟩] 1704067200000
     1704067201000 "g:Asia" ⟨[⟨"i", "t", true, 0⟩], 1704052799999⟩ srvTokyo
     1704139200000 (by decide) srvTokyo_valid (by decide) (by decide)
     (by decide)⟩

/-!
## At-most-once delivery (claim C7)

A small operational semantics for the scheduler: a step is any of the
event handlers above, run to completion (the single-threaded event loop
never interleaves them), with `generateId` freshness as a hypothesis on
the creation steps.  `WF` is the scheduler's well-formedness invariant;
`delivered.Nodup` in any reachable state is the at-most-once property.
-/

/-- Scheduler well-formedness: timer ids are distinct, a delivered id is
never live again, every armed callback belongs to a live timer that holds
exactly its handle, and all handles are below the allocator. -/
structure WF (s : AppState) : Prop where
  nodupIds : (s.activeTimers.map (fun t => t.id)).Nodup
  nodupDelivered : s.delivered.Nodup
  deliveredDead : ∀ tid ∈ s.delivered, tid ∉ s.activeTimers.map (fun t => t.id)
  pendingLive : ∀ p ∈ s.pending,
    ∃ t ∈ s.activeTimers, t.id = p.timerId ∧ t.timeoutHandle = some p.handle
  handleBound : ∀ p ∈ s.pending, p.handle < s.nextHandle

/-- One event-loop turn. -/
inductive Step (G : List Game) : AppState → AppState → Prop
  | create (s : AppState) (now : Int) (label : String) (hours minutes : Int)
      (fresh : String) :
      fresh ∉ s.activeTimers.map (fun t => t.id) → fresh ∉ s.delivered →
      Step G s (setCustomTimer s now label hours minutes fresh)
  | createReset (s : AppState) (gameId serverName : String) (mb now : Int)
      (fresh : String) :
      fresh ∉ s.activeTimers.map (fun t => t.id) → fresh ∉ s.delivered →
      Step G s (scheduleResetNotification G s gameId serverName mb now fresh)
  | cancel (s : AppState) (tid : String) : Step G s (removeTimer s tid)
  | fire (s : AppState) (h : Nat) : Step G s (fireTimeout s h)
  | sweep (s : AppState) (now : Int) : Step G s (checkExpiredTimers s now)

/-- Reachability by event-loop turns. -/
inductive Reach (G : List Game) : AppState → AppState → Prop
  | refl (s : AppState) : Reach G s s
  | tail (s t u : AppState) : Reach G s t → Step G t u → Reach G s u

theorem nodup_append_single {l : List String} {a : String}
    (hn : l.Nodup) (ha : a ∉ l) : (l ++ [a]).Nodup := by
  induction l with
  | nil => simp
  | cons x xs ih =>
    simp only [List.nodup_cons] at hn
    obtain ⟨hx, hxs⟩ := hn
    rw [List.cons_append, List.nodup_cons]
    refine ⟨?_, ih hxs (fun h => ha (List.mem_cons_of_mem x h))⟩
    intro hmem
    rcases List.mem_append.mp hmem with h | h
    · exact hx h
    · have : x = a := by simpa using h
      subst this
      exact ha (List.mem_cons_self x xs)

theorem timer_eq_of_id_eq {l : List Timer} {a b : Timer}
    (hn : (l.map (fun t => t.id)).Nodup) (ha : a ∈ l) (hb : b ∈ l)
    (hid : a.id = b.id) : a = b :=
  List.inj_on_of_nodup_map hn ha hb hid

theorem mem_clearHandle {pnd : List Pending} {h? : Option Nat} {q : Pending}
    (hq : q ∈ clearHandle pnd h?) : q ∈ pnd := by
  cases h? with
  | none => exact hq
  | some h => exact (List.mem_filter.mp hq).1

theorem handle_ne_of_mem_clearHandle {pnd : List Pending} {h : Nat}
    {q : Pending} (hq : q ∈ clearHandle pnd (some h)) : q.handle ≠ h := by
  have := (List.mem_filter.mp hq).2
  simpa using this

theorem mem_removeTimer_iff {s : AppState} {tid : String} {t : Timer} :
    t ∈ (removeTimer s tid).activeTimers ↔
      t ∈ s.activeTimers ∧ t.id ≠ tid := by
  show t ∈ s.activeTimers.filter (fun t => t.id != tid) ↔ _
  rw [List.mem_filter]
  simp

theorem mem_timerIds_removeTimer {s : AppState} {tid x : String} :
    x ∈ (removeTimer s tid).activeTimers.map (fun t => t.id) ↔
      x ∈ s.activeTimers.map (fun t => t.id) ∧ x ≠ tid := by
  constructor
  · intro hx
    obtain ⟨t, ht, rfl⟩ := List.mem_map.mp hx
    obtain ⟨ht2, hne⟩ := mem_removeTimer_iff.mp ht
    exact ⟨List.mem_map.mpr ⟨t, ht2, rfl⟩, hne⟩
  · intro ⟨hx, hne⟩
    obtain ⟨t, ht, rfl⟩ := List.mem_map.mp hx
    exact List.mem_map.mpr ⟨t, mem_removeTimer_iff.mpr ⟨ht, hne⟩, rfl⟩

theorem nodupIds_removeTimer {s : AppState} {tid : String}
    (hn : (s.activeTimers.map (fun t => t.id)).Nodup) :
    ((removeTimer s tid).activeTimers.map (fun t => t.id)).Nodup :=
  ((List.filter_sublist s.activeTimers).map (fun t => t.id)).nodup hn

/-- If some live timer has id `tid`, `removeTimer` clears every pending
callback referencing `tid`, and keeps live witnesses for the rest. -/
theorem pendingLive_removeTimer (s : AppState) (tid : String)
    (hn : (s.activeTimers.map (fun t => t.id)).Nodup)
    (hp : ∀ p ∈ s.pending,
      ∃ t ∈ s.activeTimers, t.id = p.timerId ∧ t.timeoutHandle = some p.handle) :
    ∀ q ∈ (removeTimer s tid).pending,
      ∃ t ∈ (removeTimer s tid).activeTimers,
        t.id = q.timerId ∧ t.timeoutHandle = some q.handle := by
  intro q hq
  have hqp : q ∈ s.pending := mem_clearHandle hq
  obtain ⟨t', ht', hid', hth'⟩ := hp q hqp
  by_cases hcase : t'.id = tid
  · exfalso
    have hfind : ∃ t₀, s.activeTimers.find? (fun t => t.id == tid) = some t₀ := by
      cases hf : s.activeTimers.find? (fun t => t.id == tid) with
      | some t₀ => exact ⟨t₀, rfl⟩
      | none =>
        exact absurd (by simpa using List.find?_eq_none.mp hf t' ht') (by simp [hcase])
    obtain ⟨t₀, hf⟩ := hfind
    have ht₀mem := List.mem_of_find?_eq_some hf
    have ht₀id : t₀.id = tid := by simpa using List.find?_some hf
    have : t₀ = t' := timer_eq_of_id_eq hn ht₀mem ht' (ht₀id.trans hcase.symm)
    subst this
    have hfh : foundHandle s tid = some q.handle := by
      unfold foundHandle
      rw [hf]
      exact hth'
    have hq2 : q ∈ clearHandle s.pending (some q.handle) := by
      have e : (removeTimer s tid).pending = clearHandle s.pending (some q.handle) := by
        show clearHandle s.pending (foundHandle s tid) = _
        rw [hfh]
      rw [e] at hq
      exact hq
    exact handle_ne_of_mem_clearHandle hq2 rfl
  · exact ⟨t', mem_removeTimer_iff.mpr ⟨ht', hcase⟩, hid', hth'⟩

theorem WF_removeTimer {s : AppState} (tid : String) (hw : WF s) :
    WF (removeTimer s tid) where
  nodupIds := nodupIds_removeTimer hw.nodupIds
  nodupDelivered := hw.nodupDelivered
  deliveredDead := fun x hx hmem =>
    hw.deliveredDead x hx (mem_timerIds_removeTimer.mp hmem).1
  pendingLive := pendingLive_removeTimer s tid hw.nodupIds hw.pendingLive
  handleBound := fun q hq => hw.handleBound q (mem_clearHandle hq)

/-- Delivering for a live timer id and then removing it preserves the
invariant: the id leaves the live set as it enters the delivered log. -/
theorem WF_deliverRemove (s : AppState) (tid : String) (hw : WF s)
    (hlive : tid ∈ s.activeTimers.map (fun t => t.id)) :
    WF (removeTimer { s with delivered := s.delivered ++ [tid] } tid) := by
  have hnotdel : tid ∉ s.delivered := fun hmem => hw.deliveredDead tid hmem hlive
  refine ⟨nodupIds_removeTimer hw.nodupIds,
    nodup_append_single hw.nodupDelivered hnotdel, ?_, ?_, ?_⟩
  · intro x hx hmem
    obtain ⟨hxs, hxne⟩ := mem_timerIds_removeTimer.mp hmem
    rcases List.mem_append.mp hx with h | h
    · exact hw.deliveredDead x h hxs
    · have : x = tid := by simpa using h
      exact hxne this
  · exact pendingLive_removeTimer { s with delivered := s.delivered ++ [tid] }
      tid hw.nodupIds hw.pendingLive
  · exact fun q hq => hw.handleBound q (mem_clearHandle hq)

theorem setHandleFirst_map_id : ∀ (l : List Timer) (tid : String) (h : Nat),
    (setHandleFirst l tid h).map (fun t => t.id) = l.map (fun t => t.id)
  | [], _, _ => rfl
  | a :: as, tid, h => by
    unfold setHandleFirst
    by_cases ha : a.id = tid
    · rw [if_pos ha]
      simp
    · rw [if_neg ha]
      simp [setHandleFirst_map_id as tid h]

theorem mem_setHandleFirst_of_ne {u : Timer} {tid : String} {h : Nat} :
    ∀ {l : List Timer}, u ∈ l → u.id ≠ tid → u ∈ setHandleFirst l tid h
  | [], hu, _ => absurd hu (by simp)
  | a :: as, hu, hne => by
    unfold setHandleFirst
    by_cases ha : a.id = tid
    · rw [if_pos ha]
      rcases List.mem_cons.mp hu with rfl | hmem
      · exact absurd ha hne
      · exact List.mem_cons_of_mem _ hmem
    · rw [if_neg ha]
      rcases List.mem_cons.mp hu with rfl | hmem
      · exact List.mem_cons_self _ _
      · exact List.mem_cons_of_mem _ (mem_setHandleFirst_of_ne hmem hne)

theorem setHandleFirst_mem_of_find? {tid : String} (h : Nat) :
    ∀ {l : List Timer} {t : Timer}, l.find? (fun x => x.id == tid) = some t →
      { t with timeoutHandle := some h } ∈ setHandleFirst l tid h
  | [], t, hf => by simp at hf
  | a :: as, t, hf => by
    by_cases ha : a.id = tid
    · rw [List.find?_cons_of_pos] at hf
      · have : a = t := by simpa using hf
        subst this
        unfold setHandleFirst
        rw [if_pos ha]
        exact List.mem_cons_self _ _
      · simpa using ha
    · rw [List.find?_cons_of_neg] at hf
      · unfold setHandleFirst
        rw [if_neg ha]
        exact List.mem_cons_of_mem _ (setHandleFirst_mem_of_find? h hf)
      · simpa using ha

/-- Arming (or re-arming) a timer's callback preserves the invariant. -/
theorem WF_schedule {s : AppState} (tid : String) (delay now : Int)
    (hw : WF s) : WF (scheduleTimerNotification s tid delay now) := by
  unfold scheduleTimerNotification
  cases hf : s.activeTimers.find? (fun t => t.id == tid) with
  | none => exact hw
  | some t =>
    have htmem := List.mem_of_find?_eq_some hf
    have htid : t.id = tid := by simpa using List.find?_some hf
    show WF { s with
      pending := clearHandle s.pending t.timeoutHandle ++
        [⟨s.nextHandle, tid, now + delay⟩],
      activeTimers := setHandleFirst s.activeTimers tid s.nextHandle,
      nextHandle := s.nextHandle + 1 }
    constructor
    · show ((setHandleFirst s.activeTimers tid s.nextHandle).map
        (fun t => t.id)).Nodup
      rw [setHandleFirst_map_id]
      exact hw.nodupIds
    · exact hw.nodupDelivered
    · intro x hx hmem
      apply hw.deliveredDead x hx
      rw [setHandleFirst_map_id] at hmem
      exact hmem
    · intro q hq
      rcases List.mem_append.mp hq with hql | hqr
      · have hqp : q ∈ s.pending := mem_clearHandle hql
        obtain ⟨t', ht', hid', hth'⟩ := hw.pendingLive q hqp
        by_cases hcase : t'.id = tid
        · exfalso
          have : t' = t :=
            timer_eq_of_id_eq hw.nodupIds ht' htmem (hcase.trans htid.symm)
          subst this
          rw [hth'] at hql
          exact handle_ne_of_mem_clearHandle hql rfl
        · exact ⟨t', mem_setHandleFirst_of_ne ht' hcase, hid', hth'⟩
      · have : q = ⟨s.nextHandle, tid, now + delay⟩ := by simpa using hqr
        subst this
        exact ⟨{ t with timeoutHandle := some s.nextHandle },
          setHandleFirst_mem_of_find? s.nextHandle hf, by simpa using htid, rfl⟩
    · intro q hq
      rcases List.mem_append.mp hq with hql | hqr
      · exact Nat.lt_succ_of_lt (hw.handleBound q (mem_clearHandle hql))
      · have : q = ⟨s.nextHandle, tid, now + delay⟩ := by simpa using hqr
        subst this
        exact Nat.lt_succ_self _

/-- Appending a fresh, unarmed timer preserves the invariant. -/
theorem WF_appendFresh (s : AppState) (t : Timer) (hw : WF s)
    (hfresh : t.id ∉ s.activeTimers.map (fun x => x.id))
    (hdel : t.id ∉ s.delivered) :
    WF { s with activeTimers := s.activeTimers ++ [t] } where
  nodupIds := by
    show ((s.activeTimers ++ [t]).map (fun x => x.id)).Nodup
    rw [List.map_append]
    exact nodup_append_single hw.nodupIds hfresh
  nodupDelivered := hw.nodupDelivered
  deliveredDead := by
    intro x hx hmem
    rw [List.map_append] at hmem
    rcases List.mem_append.mp hmem with h | h
    · exact hw.deliveredDead x hx h
    · have : x = t.id := by simpa using h
      subst this
      exact hdel hx
  pendingLive := by
    intro q hq
    obtain ⟨t', ht', hid', hth'⟩ := hw.pendingLive q hq
    exact ⟨t', List.mem_append_left _ ht', hid', hth'⟩
  handleBound := hw.handleBound

theorem WF_setCustomTimer {s : AppState} (now : Int) (label : String)
    (hours minutes : Int) (fresh : String) (hw : WF s)
    (hfresh : fresh ∉ s.activeTimers.map (fun t => t.id))
    (hdel : fresh ∉ s.delivered) :
    WF (setCustomTimer s now label hours minutes fresh) := by
  by_cases h1 : jsTrim label = ""
  · simp only [setCustomTimer, if_pos h1]
    exact hw
  · by_cases h2 : hours * 3600000 + minutes * 60000 ≤ 0
    · simp only [setCustomTimer, if_neg h1, if_pos h2]
      exact hw
    · simp only [setCustomTimer, if_neg h1, if_neg h2]
      exact WF_schedule _ _ _ (WF_appendFresh _ _ hw hfresh hdel)

/-- The scheduler invariant does not mention the preferences. -/
theorem WF_setPrefs {s : AppState} (np : List (String × Int)) (hw : WF s) :
    WF { s with notifPrefs := np } where
  nodupIds := hw.nodupIds
  nodupDelivered := hw.nodupDelivered
  deliveredDead := hw.deliveredDead
  pendingLive := hw.pendingLive
  handleBound := hw.handleBound

theorem WF_scheduleReset {s : AppState} (G : List Game)
    (gameId serverName : String) (mb now : Int) (fresh : String) (hw : WF s)
    (hfresh : fresh ∉ s.activeTimers.map (fun t => t.id))
    (hdel : fresh ∉ s.delivered) :
    WF (scheduleResetNotification G s gameId serverName mb now fresh) := by
  cases hg : G.find? (fun g => g.id == gameId) with
  | none =>
    simp only [scheduleResetNotification, hg]
    exact hw
  | some g =>
    cases hsv : g.servers.find? (fun sv => sv.name == serverName) with
    | none =>
      simp only [scheduleResetNotification, hg, hsv]
      exact hw
    | some sv =>
      cases hn : getNextResetUtcD sv now with
      | none =>
        simp only [scheduleResetNotification, hg, hsv, hn]
        exact hw
      | some next =>
        by_cases hle : next - mb * 60000 ≤ now
        · simp only [scheduleResetNotification, hg, hsv, hn, if_pos hle]
          exact hw
        · simp only [scheduleResetNotification, hg, hsv, hn, if_neg hle]
          exact WF_schedule _ _ _
            (WF_appendFresh
              { s with notifPrefs :=
                  setPref s.notifPrefs (gameId ++ ":" ++ serverName) mb }
              _ (WF_setPrefs _ hw) hfresh hdel)

theorem WF_filter_pending {s : AppState} (f : Pending → Bool) (hw : WF s) :
    WF { s with pending := s.pending.filter f } where
  nodupIds := hw.nodupIds
  nodupDelivered := hw.nodupDelivered
  deliveredDead := hw.deliveredDead
  pendingLive := fun q hq => hw.pendingLive q (List.mem_filter.mp hq).1
  handleBound := fun q hq => hw.handleBound q (List.mem_filter.mp hq).1

theorem WF_fireTimeout {s : AppState} (h : Nat) (hw : WF s) :
    WF (fireTimeout s h) := by
  unfold fireTimeout
  cases hf : s.pending.find? (fun p => p.handle == h) with
  | none => exact hw
  | some p =>
    have hpmem := List.mem_of_find?_eq_some hf
    obtain ⟨t, ht, hid, hth⟩ := hw.pendingLive p hpmem
    have hlive : p.timerId ∈ s.activeTimers.map (fun t => t.id) :=
      List.mem_map.mpr ⟨t, ht, hid⟩
    exact WF_deliverRemove
      { s with pending := s.pending.filter (fun q => q.handle != h) }
      p.timerId (WF_filter_pending _ hw) hlive

theorem WF_foldl_fireExpired : ∀ (l : List Timer) (s : AppState), WF s →
    (∀ t ∈ l, t.id ∈ s.activeTimers.map (fun x => x.id)) →
    (l.map (fun t => t.id)).Nodup →
    WF (l.foldl fireExpired s)
  | [], _, hw, _, _ => hw
  | t :: ts, s, hw, hall, hnd => by
    rw [List.foldl_cons]
    have ht := hall t (List.mem_cons_self t ts)
    have hw' : WF (fireExpired s t) := WF_deliverRemove s t.id hw ht
    apply WF_foldl_fireExpired ts _ hw'
    · intro u hu
      simp only [List.map_cons, List.nodup_cons] at hnd
      have hune : u.id ≠ t.id := by
        intro he
        exact hnd.1 (by rw [← he]; exact List.mem_map.mpr ⟨u, hu, rfl⟩)
      show u.id ∈ (fireExpired s t).activeTimers.map (fun x => x.id)
      exact mem_timerIds_removeTimer.mpr
        ⟨hall u (List.mem_cons_of_mem t hu), hune⟩
    · simp only [List.map_cons, List.nodup_cons] at hnd
      exact hnd.2

theorem WF_checkExpired {s : AppState} (now : Int) (hw : WF s) :
    WF (checkExpiredTimers s now) := by
  apply WF_foldl_fireExpired (expiredNoHandle s now) s hw
  · intro t ht
    have ht2 : t ∈ s.activeTimers.filter
        (fun t => decide (t.endsAt ≤ now) && t.timeoutHandle.isNone) := ht
    exact List.mem_map.mpr ⟨t, (List.mem_filter.mp ht2).1, rfl⟩
  · exact ((List.filter_sublist _).map _).nodup hw.nodupIds

theorem delivered_foldl_fireExpired : ∀ (l : List Timer) (s : AppState),
    (l.foldl fireExpired s).delivered = s.delivered ++ l.map (fun t => t.id)
  | [], s => by simp
  | t :: ts, s => by
    rw [List.foldl_cons, delivered_foldl_fireExpired ts (fireExpired s t)]
    have e : (fireExpired s t).delivered = s.delivered ++ [t.id] := rfl
    rw [e]
    simp

/-- Every scheduler event preserves well-formedness. -/
theorem WF_step {G : List Game} {s u : AppState} (hw : WF s)
    (hs : Step G s u) : WF u := by
  cases hs with
  | create now label hours minutes fresh hf hd =>
    exact WF_setCustomTimer now label hours minutes fresh hw hf hd
  | createReset gameId serverName mb now fresh hf hd =>
    exact WF_scheduleReset G gameId serverName mb now fresh hw hf hd
  | cancel tid => exact WF_removeTimer tid hw
  | fire h => exact WF_fireTimeout h hw
  | sweep now => exact WF_checkExpired now hw

theorem Reach_WF {G : List Game} {s u : AppState} (hw : WF s)
    (hr : Reach G s u) : WF u := by
  induction hr with
  | refl => exact hw
  | tail t u hr hs ih => exact WF_step ih hs

/-- C7: in every state reachable from a well-formed one, no timer's
notification has been delivered twice (`delivered` has no duplicate id) —
firing removes a timer in the same atomic turn, and the 1 Hz safety-net
sweep delivers exactly the expired timers with no recorded callback
handle, still without ever duplicating a delivery. -/
theorem timer_fires_at_most_once (G : List Game) (s0 s : AppState)
    (h0 : WF s0) (hr : Reach G s0 s) :
    s.delivered.Nodup ∧
    (∀ now, (checkExpiredTimers s now).delivered =
      s.delivered ++ (expiredNoHandle s now).map (fun t => t.id)) ∧
    (∀ now, (checkExpiredTimers s now).delivered.Nodup) := by
  have hw := Reach_WF h0 hr
  refine ⟨hw.nodupDelivered, ?_, ?_⟩
  · intro now
    exact delivered_foldl_fireExpired (expiredNoHandle s now) s
  · intro now
    exact (WF_checkExpired now hw).nodupDelivered

/-- Witness for C7: from the empty state, create a `0h 30m` timer and let
its callback fire; the delivery log is duplicate-free. -/
theorem timer_fires_at_most_once_witness :
    (fireTimeout (setCustomTimer ⟨[], [], 1, [], []⟩ 0 "tea" 0 30 "a") 1).delivered.Nodup :=
  (timer_fires_at_most_once [] ⟨[], [], 1, [], []⟩
    (fireTimeout (setCustomTimer ⟨[], [], 1, [], []⟩ 0 "tea" 0 30 "a") 1)
    ⟨by simp, by simp, by simp, by simp, by simp⟩
    (Reach.tail _ _ _
      (Reach.tail _ _ _ (Reach.refl _)
        (Step.create _ 0 "tea" 0 30 "a" (by simp) (by simp)))
      (Step.fire _ 1))).1
